import Mathlib

set_option maxRecDepth 10000

/-!
Verification of the RaptorQ processor (`src/rqprocessor.rs`).

The development shallowly embeds the processor's pure logic:
* `repair_symbols_num` — the repair-count policy, whose double-precision
  floating-point evaluation is modelled exactly over `ℚ` with an explicit
  round-to-nearest-even function (`roundF64`) applied after every operation,
  and a saturating cast to `u32` (`u32_sat`) at the end;
* `sha3_256`, `base58Encode`, `symbols_id` — the identifier function;
* `encode`, `create_metadata`, `decode` — the three operations, with the
  filesystem modelled as an explicit list of writes, directory contents and
  the random GUID source as explicit inputs, and the external RaptorQ
  encoder/decoder as function parameters (their implementation lives in the
  vendored FEC library, outside this repository's core sources).
-/

/-! ### Model of IEEE-754 binary64 rounding over ℚ

`f64` arithmetic in the source computes the exact real result of each
operation and rounds it to the nearest representable binary64 value (ties to
even).  We model a binary64 value by the rational it denotes, and rounding by
`roundF64`.  The model covers the normal range; every value reachable in
`repair_symbols_num` for inputs in the `u16`/`u8`/`u64` domains with a
positive symbol size lies in the normal range (magnitudes between `2 ^ (-17)`
and `2 ^ 72`), so no subnormal or overflow case is needed. -/

/-- Fuel-driven binary logarithm: `log2fuel f n = ⌊log₂ n⌋` for `1 ≤ n < 2 ^ f`
(structural recursion, so that concrete instances reduce in the kernel). -/
def log2fuel : ℕ → ℕ → ℕ
  | 0, _ => 0
  | f+1, n => if n ≤ 1 then 0 else log2fuel f (n / 2) + 1

/-- `⌊log₂ n⌋` for `1 ≤ n < 2 ^ 128`, covering every magnitude reachable in
the repair-count computation. -/
def nlog2 (n : ℕ) : ℕ := log2fuel 128 n

/-- Round a rational to the nearest integer, ties to even. -/
def rne (q : ℚ) : ℤ :=
  let f := ⌊q⌋
  let r := q - (f : ℚ)
  if r < 1/2 then f
  else if 1/2 < r then f + 1
  else if f % 2 = 0 then f else f + 1

/-- `qlog2 q` is `⌊log₂ q⌋` for positive `q` with numerator and denominator
below `2 ^ 128` (arbitrary on the rest). -/
def qlog2 (q : ℚ) : ℤ :=
  let k0 : ℤ := (nlog2 q.num.natAbs : ℤ) - (nlog2 q.den : ℤ)
  if q < (2 : ℚ) ^ k0 then k0 - 1 else k0

/-- Round a positive rational to the nearest binary64 value (53-bit
significand), ties to even. -/
def roundF64Pos (q : ℚ) : ℚ :=
  let scale : ℤ := qlog2 q - 52
  (rne (q / (2 : ℚ) ^ scale) : ℚ) * (2 : ℚ) ^ scale

/-- Round a rational to the nearest binary64 value, ties to even. -/
def roundF64 (q : ℚ) : ℚ :=
  if q < 0 then - roundF64Pos (-q) else if q = 0 then 0 else roundF64Pos q

/-- Rust's saturating `as u32` cast applied to an integral float value:
truncation toward zero (the identity on integers) followed by clamping into
`[0, 2^32 - 1]`. -/
def u32_sat (z : ℤ) : ℕ := if z < 0 then 0 else min z.toNat (2 ^ 32 - 1)

/-! ### The repair-count policy (`RaptorQProcessor::repair_symbols_num`)

```rust
fn repair_symbols_num(symbol_size: u16, redundancy_factor: u8, data_len: u64) -> u32 {
    if data_len <= symbol_size as u64 {
        redundancy_factor as u32
    } else {
        (data_len as f64 *
            (f64::from(redundancy_factor) - 1.0) /
            f64::from(symbol_size)).ceil() as u32
    }
}
```

`data_len as f64` rounds (u64 exceeds the 53-bit significand);
`f64::from(redundancy_factor)` and `f64::from(symbol_size)` are exact
conversions; the subtraction, multiplication and division each round their
exact result; `.ceil()` of a binary64 value is exactly `⌈·⌉` (always
representable); the final `as u32` saturates.  The machine words are carried
as `ℕ` with their range (`S < 2^16`, `R < 2^8`, `L < 2^64`) imposed by the
theorems that need it. -/

def repair_symbols_num (symbol_size redundancy_factor data_len : ℕ) : ℕ :=
  if data_len ≤ symbol_size then redundancy_factor
  else
    let l := roundF64 (data_len : ℚ)
    let rm1 := roundF64 ((redundancy_factor : ℚ) - 1)
    let prod := roundF64 (l * rm1)
    let quot := roundF64 (prod / (symbol_size : ℚ))
    u32_sat ⌈quot⌉

/-! ### The identifier function (`RaptorQProcessor::symbols_id`)

```rust
fn symbols_id(symbol: &Vec<u8>) -> String {
    let mut hasher = Sha3_256::new();
    hasher.update(symbol);
    bs58::encode(&hasher.finalize()).into_string()
}
```

The `sha3` crate's `Sha3_256` is FIPS-202 SHA3-256 (Keccak-f[1600], rate 136
bytes, domain suffix `0x06`); the `bs58` crate is plain Bitcoin-alphabet
base-58 with leading zero bytes encoded as leading `1`s.  Both are embedded
below.  Bytes are `ℕ` values below 256; lanes are `ℕ` values below `2 ^ 64`. -/

/-- Rotate a 64-bit lane left by `r` bits. -/
def rotl64 (x r : ℕ) : ℕ := ((x <<< r) ||| (x >>> (64 - r))) % 2 ^ 64

/-- Read lane `(x, y)` of a Keccak state (25 lanes, index `x + 5 * y`). -/
def lane (s : List ℕ) (x y : ℕ) : ℕ := s.getD (x % 5 + 5 * (y % 5)) 0

/-- Keccak θ step. -/
def keccakTheta (s : List ℕ) : List ℕ :=
  let c := fun x => lane s x 0 ^^^ lane s x 1 ^^^ lane s x 2 ^^^ lane s x 3 ^^^ lane s x 4
  let d := fun x => c ((x + 4) % 5) ^^^ rotl64 (c ((x + 1) % 5)) 1
  List.ofFn (fun i : Fin 25 => lane s (i.val % 5) (i.val / 5) ^^^ d (i.val % 5))

/-- Keccak rotation offsets, indexed by `x + 5 * y`, generated as in FIPS 202:
walk `(x, y) ↦ (y, 2x + 3y mod 5)` from `(1, 0)`, assigning the triangular
number `(t+1)(t+2)/2 mod 64` at step `t` (lane `(0, 0)` keeps offset 0). -/
def keccakRotOff : List ℕ :=
  ((List.range 24).foldl
    (fun st t =>
      let x := st.2.1
      let y := st.2.2
      (st.1.set (x + 5 * y) ((t + 1) * (t + 2) / 2 % 64), (y, (2 * x + 3 * y) % 5)))
    (List.replicate 25 0, (1, 0))).1

/-- Keccak ρ and π steps combined: output lane `(X, Y)` is the rotated input
lane `(x, y)` with `y = X` and `x = (X + 3 Y) mod 5`. -/
def keccakRhoPi (s : List ℕ) : List ℕ :=
  List.ofFn (fun i : Fin 25 =>
    let X := i.val % 5
    let Y := i.val / 5
    let x := (X + 3 * Y) % 5
    rotl64 (lane s x X) (keccakRotOff.getD (x + 5 * X) 0))

/-- Keccak χ step. -/
def keccakChi (s : List ℕ) : List ℕ :=
  List.ofFn (fun i : Fin 25 =>
    let X := i.val % 5
    let Y := i.val / 5
    lane s X Y ^^^ ((2 ^ 64 - 1) ^^^ lane s (X + 1) Y) &&& lane s (X + 2) Y)

/-- One step of the degree-8 LFSR of FIPS 202 (`x^8 + x^6 + x^5 + x^4 + 1`)
on an 8-bit register. -/
def keccakLfsrStep (R : ℕ) : ℕ :=
  let R2 := R <<< 1
  if R2 &&& 0x100 ≠ 0 then R2 ^^^ 0x171 else R2

/-- `rc(t)` of FIPS 202: bit 0 of the LFSR register after `t` steps from 1. -/
def keccakRcBit (t : ℕ) : ℕ :=
  ((List.range t).foldl (fun R _ => keccakLfsrStep R) 1) &&& 1

/-- Keccak round constants, generated as in FIPS 202: round `i` sets bit
`2^j - 1` to `rc(7i + j)` for `j = 0 … 6`. -/
def keccakRC : List ℕ :=
  (List.range 24).map (fun i =>
    (List.range 7).foldl (fun acc j => acc + keccakRcBit (7 * i + j) * 2 ^ (2 ^ j - 1)) 0)

/-- Keccak ι step for round `r`. -/
def keccakIota (s : List ℕ) (r : ℕ) : List ℕ :=
  List.ofFn (fun i : Fin 25 =>
    if i.val = 0 then s.getD 0 0 ^^^ keccakRC.getD r 0 else s.getD i.val 0)

/-- One Keccak-f round. -/
def keccakRound (s : List ℕ) (r : ℕ) : List ℕ :=
  keccakIota (keccakChi (keccakRhoPi (keccakTheta s))) r

/-- The Keccak-f[1600] permutation (24 rounds). -/
def keccakF (s : List ℕ) : List ℕ :=
  (List.range 24).foldl keccakRound s

/-- Load lane `j` (little-endian) from a 136-byte rate block. -/
def loadLane (block : List ℕ) (j : ℕ) : ℕ :=
  (List.range 8).foldl (fun acc k => acc + block.getD (8 * j + k) 0 <<< (8 * k)) 0

/-- XOR a 136-byte block into the first 17 lanes of the state. -/
def xorBlock (s : List ℕ) (block : List ℕ) : List ℕ :=
  List.ofFn (fun i : Fin 25 =>
    if i.val < 17 then s.getD i.val 0 ^^^ loadLane block i.val else s.getD i.val 0)

/-- SHA-3 padding suffix (`0x06 0x00 … 0x80`, or the single byte `0x86`)
for a message of length `len`, bringing it to a multiple of 136 bytes. -/
def sha3Pad (len : ℕ) : List ℕ :=
  let q := 136 - len % 136
  if q = 1 then [0x86] else 0x06 :: (List.replicate (q - 2) 0 ++ [0x80])

/-- Absorb a padded message (length a positive multiple of 136) into the
sponge state. -/
def absorbBlocks (s : List ℕ) (m : List ℕ) : List ℕ :=
  if h : m = [] then s
  else absorbBlocks (keccakF (xorBlock s (m.take 136))) (m.drop 136)
  termination_by m.length
  decreasing_by
    simp only [List.length_drop]
    have : m.length ≠ 0 := fun hc => h (List.eq_nil_of_length_eq_zero hc)
    omega

/-- SHA3-256 of a byte sequence: absorb the padded message into the all-zero
state, then squeeze 32 output bytes from the first four lanes. -/
def sha3_256 (m : List ℕ) : List ℕ :=
  let s := absorbBlocks (List.replicate 25 0) (m ++ sha3Pad m.length)
  List.ofFn (fun i : Fin 32 => (s.getD (i.val / 8) 0 >>> (8 * (i.val % 8))) % 256)

/-- The Bitcoin base-58 alphabet used by the `bs58` crate. -/
def base58Alphabet : List Char :=
  "123456789ABCDEFGHJKLMNPQRSTUVWXYZabcdefghijkmnopqrstuvwxyz".toList

/-- Base-58 digits (most significant first) of a natural number; empty for 0. -/
def natToBase58 (n : ℕ) : List Char :=
  if n = 0 then []
  else natToBase58 (n / 58) ++ [base58Alphabet.getD (n % 58) '1']
  termination_by n
  decreasing_by exact Nat.div_lt_self (Nat.pos_of_ne_zero (by assumption)) (by norm_num)

/-- A byte sequence as a big-endian natural number. -/
def bytesToNat (b : List ℕ) : ℕ := b.foldl (fun acc c => acc * 256 + c) 0

/-- Base-58 encoding of a byte sequence: one `1` per leading zero byte, then
the base-58 digits of the big-endian value. -/
def base58Encode (b : List ℕ) : String :=
  String.mk (List.replicate (b.takeWhile (fun c => c = 0)).length '1'
    ++ natToBase58 (bytesToNat b))

/-- Model of the `sha3` crate's incremental hasher: the absorbed bytes. -/
structure Sha3Hasher where
  buf : List ℕ

/-- `Sha3_256::new()`. -/
def Sha3Hasher.new : Sha3Hasher := ⟨[]⟩

/-- `hasher.update(data)`. -/
def Sha3Hasher.update (h : Sha3Hasher) (data : List ℕ) : Sha3Hasher :=
  ⟨h.buf ++ data⟩

/-- `hasher.finalize()`. -/
def Sha3Hasher.finalize (h : Sha3Hasher) : List ℕ := sha3_256 h.buf

/-- `RaptorQProcessor::symbols_id`, exactly as the source writes it: a fresh
hasher, one `update` with the packet bytes, `finalize`, then base-58. -/
def symbols_id (symbol : List ℕ) : String :=
  base58Encode (Sha3Hasher.finalize (Sha3Hasher.update Sha3Hasher.new symbol))

/-- The spec's identifier function, stated as the spec words it:
`symbol_id(bytes) = base58(SHA3_256(bytes))`, with no prefix, checksum or
length delimiter. -/
def spec_symbol_id (bytes : List ℕ) : String := base58Encode (sha3_256 bytes)

/-! ### Paths, errors and records

Paths are modelled as `/`-separated strings (the normalized form every
caller of this service uses).  `Path::with_file_name` replaces the last
component; `Path::parent().join(sub)` drops the last component and appends
`sub`.  `path_buf_to_string` never fails in the model because Lean strings
are always valid unicode. -/

/-- Rust `Path::with_file_name`: drop the final component, append `name`. -/
def with_file_name (p : String) (name : String) : String :=
  String.intercalate "/" ((p.splitOn "/").dropLast ++ [name])

/-- `RaptorQProcessor::output_location`: the parent of `input` joined with
`sub` (the directory creation side effect is assumed to succeed). -/
def output_location (input : String) (sub : String) : String :=
  if sub = "" then String.intercalate "/" (input.splitOn "/").dropLast
  else String.intercalate "/" ((input.splitOn "/").dropLast ++ [sub])

/-- The error record `RqProcessorError { func, msg, prev_msg }`. -/
structure RqProcessorError where
  func : String
  msg : String
  prev_msg : String
deriving DecidableEq

/-- `RqProcessorError::new`. -/
def RqProcessorError.new (func msg : String) (prev_msg : String) : RqProcessorError :=
  ⟨func, msg, prev_msg⟩

/-- `RqProcessorError::new_file_err` (the path is rendered with Rust's
`{:?}`, which quotes it). -/
def RqProcessorError.new_file_err (func msg : String) (path : String)
    (prev_msg : String) : RqProcessorError :=
  ⟨func, msg ++ " [path: \"" ++ path ++ "\"]", prev_msg⟩

/-- `EncoderMetaData { encoder_parameters, source_symbols, repair_symbols }`.
The counts are `u32` values carried as `ℕ`. -/
structure EncoderMetaData where
  encoder_parameters : List ℕ
  source_symbols : ℕ
  repair_symbols : ℕ
deriving DecidableEq

/-- The manifest record `RqIdsFile { id, block_hash, pastel_id,
symbol_identifiers }` (its JSON serialization is deterministic in the
record, so manifest equality is stated on the records). -/
structure RqIdsFile where
  id : String
  block_hash : String
  pastel_id : String
  symbol_identifiers : List String
deriving DecidableEq

/-- Wrapping `u32` subtraction (`a - b` in release mode), for `a, b < 2^32`. -/
def u32_sub (a b : ℕ) : ℕ := (a + 2 ^ 32 - b) % 2 ^ 32

/-! ### The processor operations

The external pieces are explicit inputs:
* the raptorq `Encoder` built by `get_encoder` from the file bytes is an
  `EncoderModel` (its packet enumeration and serialized OTI config);
* the file length recorded by `get_encoder` from the file metadata is
  `fileLen`;
* the v4-GUID source `Uuid::new_v4()` is a stream `guids : ℕ → String`
  (call `n` of the loop draws `guids n`);
* the raptorq `Decoder` is a state type `σ` with constructor `mkDec` (from
  the 12 config bytes) and a step `step st data = (st2, result?)` modelling
  `dec.decode(EncodingPacket::deserialize(&data))`;
* the filesystem: directory listing is an input, writes are returned as an
  explicit `(path, bytes)` list, and write calls are assumed to succeed. -/

/-- Model of the external raptorq `Encoder` as used by the processor:
`get_encoded_packets` and the serialized `get_config()` (the OTI). -/
structure EncoderModel where
  getEncodedPackets : ℕ → List (List ℕ)
  configSerialized : List ℕ

/-- `RaptorQProcessor::encode`: enumerate packets, write each under its
identifier inside the sibling `symbols/` directory, return the metadata and
the output directory. -/
def encode (symbol_size redundancy_factor : ℕ) (enc : EncoderModel) (path : String)
    (fileLen : ℕ) : (EncoderMetaData × String) × List (String × List ℕ) :=
  let repair := repair_symbols_num symbol_size redundancy_factor fileLen
  let output_path := output_location path "symbols"
  let symbols := enc.getEncodedPackets repair
  let writes := symbols.map (fun pkt => (output_path ++ "/" ++ symbols_id pkt, pkt))
  ((⟨enc.configSerialized, u32_sub (symbols.length % 2 ^ 32) repair, repair⟩,
    output_path), writes)

/-- `RaptorQProcessor::create_metadata`: enumerate packets, compute the
identifier list once, then write `files_number` manifest replicas into the
sibling `meta/` directory, each named by a fresh GUID that is also its `id`
field. -/
def create_metadata (symbol_size redundancy_factor : ℕ) (enc : EncoderModel)
    (path : String) (fileLen : ℕ) (files_number : ℕ)
    (block_hash pastel_id : String) (guids : ℕ → String) :
    (EncoderMetaData × String) × List (String × RqIdsFile) :=
  let repair := repair_symbols_num symbol_size redundancy_factor fileLen
  let names := (enc.getEncodedPackets repair).map (fun pkt => symbols_id pkt)
  let names_len := names.length % 2 ^ 32
  let output_path := output_location path "meta"
  let writes := (List.range files_number).map (fun n =>
    (output_path ++ "/" ++ guids n,
     { id := guids n, block_hash := block_hash, pastel_id := pastel_id,
       symbol_identifiers := names : RqIdsFile }))
  ((⟨enc.configSerialized, u32_sub names_len repair, repair⟩, output_path), writes)

/-- Lowercase hexadecimal digit test. -/
def isHexDigitLower (c : Char) : Bool :=
  ('0' ≤ c && c ≤ '9') || ('a' ≤ c && c ≤ 'f')

/-- The textual shape of `Uuid::new_v4().to_string()`: 36 characters,
hyphens at positions 8, 13, 18, 23, version nibble `4` at position 14,
variant nibble in `8 9 a b` at position 19, lowercase hex elsewhere. -/
def isV4Guid (s : String) : Bool :=
  let cs := s.toList
  (cs.length == 36) &&
  (List.range 36).all (fun i =>
    if i = 8 || i = 13 || i = 18 || i = 23 then cs.getD i ' ' == '-'
    else if i = 14 then cs.getD i ' ' == '4'
    else if i = 19 then ['8', '9', 'a', 'b'].contains (cs.getD i ' ')
    else isHexDigitLower (cs.getD i ' '))

instance {ε α : Type} [DecidableEq ε] [DecidableEq α] : DecidableEq (Except ε α)
  | Except.error a, Except.error b =>
      if h : a = b then isTrue (by rw [h]) else isFalse (fun hc => h (by injection hc))
  | Except.error _, Except.ok _ => isFalse (fun hc => Except.noConfusion hc)
  | Except.ok _, Except.error _ => isFalse (fun hc => Except.noConfusion hc)
  | Except.ok a, Except.ok b =>
      if h : a = b then isTrue (by rw [h]) else isFalse (fun hc => h (by injection hc))

/-- One directory entry as `decode` observes it: either the iterator fails
to produce a path, or it yields a file path whose read yields bytes or an
error (the error record `open_and_read` would build). -/
inductive DirEntry where
  | err (msg : String)
  | file (path : String) (content : Except RqProcessorError (List ℕ))
deriving DecidableEq

/-- The directory loop of `RaptorQProcessor::decode`: feed each readable
entry to the decoder; the first completion writes `restored_file` next to
the symbol directory and returns; a bad entry fails immediately; exhaustion
fails with the `Cannot restore…` message. -/
def decodeLoop {σ : Type} (step : σ → List ℕ → σ × Option (List ℕ)) (path : String) :
    List DirEntry → σ → Except RqProcessorError String × List (String × List ℕ)
  | [], _ =>
      (Except.error (RqProcessorError.new "decode"
        ("Cannot restore the original file from symbols at " ++ path) ""), [])
  | DirEntry.err msg :: _, _ =>
      (Except.error (RqProcessorError.new "decode" "Cannot get file path" msg), [])
  | DirEntry.file _ (Except.error e) :: _, _ => (Except.error e, [])
  | DirEntry.file _ (Except.ok data) :: rest, st =>
      match step st data with
      | (st2, none) => decodeLoop step path rest st2
      | (_, some result) =>
          (Except.ok (with_file_name path "restored_file"),
           [(with_file_name path "restored_file", result)])

/-- `RaptorQProcessor::decode`: validate the arguments, build the decoder
from the first 12 bytes of `encoder_parameters` (zero-padded if shorter,
via `cfg.iter_mut().set_from(…)` over `[0u8; 12]`), list the directory and
run the loop. -/
def decode {σ : Type} (mkDec : List ℕ → σ)
    (step : σ → List ℕ → σ × Option (List ℕ)) (encoder_parameters : List ℕ)
    (path : String) (dir : Except String (List DirEntry)) :
    Except RqProcessorError String × List (String × List ℕ) :=
  if path = "" then
    (Except.error (RqProcessorError.new "decode" "Input symbol's path is empty" ""), [])
  else if encoder_parameters.length = 0 then
    (Except.error (RqProcessorError.new "decode" "encoder_parameters are empty" ""), [])
  else
    let cfg := encoder_parameters.take 12 ++ List.replicate (12 - encoder_parameters.length) 0
    let dec := mkDec cfg
    match dir with
    | Except.error e =>
        (Except.error (RqProcessorError.new "decode"
          ("Cannot get list of input files from " ++ path) e), [])
    | Except.ok entries => decodeLoop step path entries dec

/-- A run of the decode loop over a prefix of entries in which every entry
is readable and no feed completes reconstruction; returns the final decoder
state. -/
def noCompleteRun {σ : Type} (step : σ → List ℕ → σ × Option (List ℕ)) :
    σ → List DirEntry → Option σ
  | st, [] => some st
  | st, DirEntry.file _ (Except.ok data) :: rest =>
      match step st data with
      | (st2, none) => noCompleteRun step st2 rest
      | (_, some _) => none
  | _, DirEntry.err _ :: _ => none
  | _, DirEntry.file _ (Except.error _) :: _ => none


/-! ## Correctness of the float model and the repair-count policy -/

theorem log2fuel_correct (f : ℕ) : ∀ n : ℕ, 1 ≤ n → n < 2 ^ f →
    2 ^ (log2fuel f n) ≤ n ∧ n < 2 ^ (log2fuel f n + 1) := by
  induction f with
  | zero =>
    intro n h1 h2
    simp at h2
    omega
  | succ f ih =>
    intro n h1 h2
    rw [log2fuel]
    by_cases h : n ≤ 1
    · simp only [h, if_true]
      constructor
      · simpa using h1
      · have : n = 1 := by omega
        simp [this]
    · simp only [h, if_false]
      have hd1 : 1 ≤ n / 2 := by omega
      have hd2 : n / 2 < 2 ^ f := by
        have hp : 2 ^ (f + 1) = 2 * 2 ^ f := by ring
        omega
      obtain ⟨l, u⟩ := ih (n / 2) hd1 hd2
      have e1 : 2 ^ (log2fuel f (n / 2) + 1) = 2 * 2 ^ (log2fuel f (n / 2)) := by ring
      have e2 : 2 ^ (log2fuel f (n / 2) + 1 + 1) = 2 * 2 ^ (log2fuel f (n / 2) + 1) := by ring
      omega

theorem nlog2_correct (n : ℕ) (h1 : 1 ≤ n) (h2 : n < 2 ^ 128) :
    2 ^ (nlog2 n) ≤ n ∧ n < 2 ^ (nlog2 n + 1) :=
  log2fuel_correct 128 n h1 h2

theorem qlog2_correct (q : ℚ) (hq : 0 < q) (hnum : q.num.natAbs < 2 ^ 128)
    (hden : q.den < 2 ^ 128) :
    (2:ℚ) ^ (qlog2 q) ≤ q ∧ q < (2:ℚ) ^ (qlog2 q + 1) := by
  have hnumpos : 0 < q.num := Rat.num_pos.mpr hq
  have ha1 : 1 ≤ q.num.natAbs := by omega
  have hb1 : 1 ≤ q.den := q.den_pos
  obtain ⟨hA1, hA2⟩ := nlog2_correct q.num.natAbs ha1 hnum
  obtain ⟨hB1, hB2⟩ := nlog2_correct q.den hb1 hden
  set A := nlog2 q.num.natAbs with hA
  set B := nlog2 q.den with hB
  set k0 : ℤ := (A : ℤ) - (B : ℤ) with hk0
  have hbQ : (0:ℚ) < (q.den : ℚ) := by exact_mod_cast hb1
  have hqab : q = (q.num.natAbs : ℚ) / (q.den : ℚ) := by
    nth_rewrite 1 [← Rat.num_div_den q]
    congr 1
    rw [Int.cast_natAbs]
    rw [abs_of_pos]
    exact_mod_cast hnumpos
  have h2pos : ∀ k : ℤ, (0:ℚ) < 2 ^ k := fun k => zpow_pos (by norm_num) k
  have hcast : ∀ m : ℕ, ((2 ^ m : ℕ) : ℚ) = (2:ℚ) ^ (m : ℤ) := by
    intro m
    push_cast
    rw [zpow_natCast]
  -- upper bound : q < 2 ^ (k0 + 1)
  have hqu : q < (2:ℚ) ^ (k0 + 1) := by
    rw [hqab, div_lt_iff₀ hbQ]
    have e1 : (2:ℚ) ^ (k0 + 1) * (2:ℚ) ^ (B : ℤ) = (2:ℚ) ^ ((A + 1 : ℕ) : ℤ) := by
      rw [← zpow_add₀ (two_ne_zero)]
      congr 1
      push_cast
      omega
    calc (q.num.natAbs : ℚ) < ((2 ^ (A + 1) : ℕ) : ℚ) := by exact_mod_cast hA2
      _ = (2:ℚ) ^ ((A + 1 : ℕ) : ℤ) := hcast (A + 1)
      _ = (2:ℚ) ^ (k0 + 1) * (2:ℚ) ^ (B : ℤ) := e1.symm
      _ ≤ (2:ℚ) ^ (k0 + 1) * (q.den : ℚ) := by
          apply mul_le_mul_of_nonneg_left _ (le_of_lt (h2pos _))
          calc (2:ℚ) ^ (B : ℤ) = ((2 ^ B : ℕ) : ℚ) := (hcast B).symm
            _ ≤ (q.den : ℚ) := by exact_mod_cast hB1
  -- lower bound : 2 ^ (k0 - 1) < q
  have hql : (2:ℚ) ^ (k0 - 1) < q := by
    rw [hqab, lt_div_iff₀ hbQ]
    have e1 : (2:ℚ) ^ (k0 - 1) * (2:ℚ) ^ ((B + 1 : ℕ) : ℤ) = (2:ℚ) ^ ((A : ℕ) : ℤ) := by
      rw [← zpow_add₀ (two_ne_zero)]
      congr 1
      push_cast
      omega
    calc (2:ℚ) ^ (k0 - 1) * (q.den : ℚ)
        < (2:ℚ) ^ (k0 - 1) * (2:ℚ) ^ ((B + 1 : ℕ) : ℤ) := by
          apply mul_lt_mul_of_pos_left _ (h2pos _)
          calc (q.den : ℚ) < ((2 ^ (B + 1) : ℕ) : ℚ) := by exact_mod_cast hB2
            _ = (2:ℚ) ^ ((B + 1 : ℕ) : ℤ) := hcast (B + 1)
      _ = (2:ℚ) ^ ((A : ℕ) : ℤ) := e1
      _ = ((2 ^ A : ℕ) : ℚ) := (hcast A).symm
      _ ≤ (q.num.natAbs : ℚ) := by exact_mod_cast hA1
  rw [qlog2]
  by_cases hcase : q < (2:ℚ) ^ k0
  · rw [← hA, ← hB, ← hk0]
    simp only [hcase, if_true]
    constructor
    · exact le_of_lt hql
    · have : k0 - 1 + 1 = k0 := by ring
      rw [this]
      exact hcase
  · rw [← hA, ← hB, ← hk0]
    simp only [hcase, if_false]
    exact ⟨le_of_not_lt hcase, hqu⟩

theorem rne_intCast (n : ℤ) : rne (n : ℚ) = n := by
  rw [rne]
  simp [Int.floor_intCast]

theorem abs_rne_sub_le (q : ℚ) : |(rne q : ℚ) - q| ≤ 1/2 := by
  rw [rne]
  have h0 : (⌊q⌋ : ℚ) ≤ q := Int.floor_le q
  have h1 : q < (⌊q⌋ : ℚ) + 1 := Int.lt_floor_add_one q
  split_ifs with hc1 hc2 hc3
  · rw [abs_le]
    constructor <;> linarith
  · push_cast
    rw [abs_le]
    constructor <;> linarith
  · rw [abs_le]
    constructor <;> linarith
  · push_cast
    rw [abs_le]
    have : ¬ (q - (⌊q⌋ : ℚ) < 1/2) := hc1
    have : ¬ (1/2 < q - (⌊q⌋ : ℚ)) := hc2
    constructor <;> linarith

theorem q2pow_natCast (m : ℕ) : ((2 ^ m : ℕ) : ℚ) = (2:ℚ) ^ (m : ℤ) := by
  push_cast
  rw [zpow_natCast]

theorem roundF64Pos_natCast (n : ℕ) (hn1 : 1 ≤ n) (hn2 : n ≤ 2 ^ 53) :
    roundF64Pos (n : ℚ) = n := by
  have hq : (0:ℚ) < n := by exact_mod_cast hn1
  have hnum : ((n:ℚ)).num.natAbs < 2 ^ 128 := by
    rw [Rat.num_natCast]
    simp only [Int.natAbs_ofNat]
    omega
  have hden : ((n:ℚ)).den < 2 ^ 128 := by
    rw [Rat.den_natCast]
    norm_num
  obtain ⟨hel, heu⟩ := qlog2_correct (n:ℚ) hq hnum hden
  rw [roundF64Pos]
  set e := qlog2 (n:ℚ) with he
  have he53 : e ≤ 53 := by
    by_contra hcon
    push_neg at hcon
    have h54 : (2:ℚ) ^ (53:ℤ) < (2:ℚ) ^ e := by
      apply zpow_lt_zpow_right₀ (by norm_num) (by omega)
    have hle1 : (n:ℚ) ≤ ((2 ^ 53 : ℕ) : ℚ) := by exact_mod_cast hn2
    have hle2 : ((2 ^ 53 : ℕ) : ℚ) = (2:ℚ) ^ (53:ℤ) := by norm_num
    linarith
  by_cases he52 : e ≤ 52
  · set m : ℕ := (52 - e).toNat with hm
    have hmz : (m : ℤ) = 52 - e := by omega
    have hpow : (2:ℚ) ^ (e - 52) = ((2:ℚ) ^ (m:ℤ))⁻¹ := by
      rw [← zpow_neg]
      congr 1
      omega
    have hmul : (2:ℚ) ^ (m:ℤ) = ((2 ^ m : ℕ) : ℚ) := (q2pow_natCast m).symm
    have hkey : (n:ℚ) / (2:ℚ) ^ (e - 52) = (((n * 2 ^ m : ℕ) : ℤ) : ℚ) := by
      rw [hpow, div_eq_mul_inv, inv_inv, hmul]
      push_cast
      ring
    rw [hkey, rne_intCast, hpow, hmul]
    push_cast
    rw [mul_inv_cancel_right₀ (by positivity : ((2:ℚ) ^ m) ≠ 0)]
  · have he53' : e = 53 := by omega
    have hel' : ((2 ^ 53 : ℕ) : ℚ) ≤ (n:ℚ) := by
      rw [q2pow_natCast 53, show ((53:ℕ):ℤ) = e by omega]
      exact hel
    have h2 : 2 ^ 53 ≤ n := by exact_mod_cast hel'
    have hn53 : n = 2 ^ 53 := by omega
    rw [show e - 52 = (1:ℤ) by omega, zpow_one, hn53]
    have hkey : ((2 ^ 53 : ℕ) : ℚ) / 2 = (((2 ^ 52 : ℤ)) : ℚ) := by norm_num
    rw [hkey, rne_intCast]
    norm_num

theorem roundF64_zero : roundF64 0 = 0 := by
  rw [roundF64]
  norm_num

theorem roundF64_pos_eq (q : ℚ) (h : 0 < q) : roundF64 q = roundF64Pos q := by
  rw [roundF64, if_neg (by linarith), if_neg (by linarith)]

theorem roundF64_natCast (n : ℕ) (h : n ≤ 2 ^ 53) : roundF64 (n : ℚ) = n := by
  by_cases h0 : n = 0
  · rw [h0]
    push_cast
    exact roundF64_zero
  · rw [roundF64_pos_eq _ (by exact_mod_cast Nat.pos_of_ne_zero h0)]
    exact roundF64Pos_natCast n (Nat.one_le_iff_ne_zero.mpr h0) h

theorem roundF64Pos_err (q : ℚ) (h0 : 0 < q) (h37 : q < (2:ℚ) ^ (37:ℤ))
    (hnum : q.num.natAbs < 2 ^ 128) (hden : q.den < 2 ^ 128) :
    |roundF64Pos q - q| ≤ (2:ℚ) ^ (-17 : ℤ) := by
  obtain ⟨hel, heu⟩ := qlog2_correct q h0 hnum hden
  rw [roundF64Pos]
  set e := qlog2 q with he
  have he36 : e ≤ 36 := by
    by_contra hcon
    push_neg at hcon
    have hge : (2:ℚ) ^ (37:ℤ) ≤ (2:ℚ) ^ e := zpow_le_zpow_right₀ (by norm_num) (by omega)
    linarith
  set s : ℤ := e - 52 with hs
  have hspos : (0:ℚ) < (2:ℚ) ^ s := zpow_pos (by norm_num) s
  have hqs : q / (2:ℚ) ^ s * (2:ℚ) ^ s = q := div_mul_cancel₀ q (ne_of_gt hspos)
  have hsub : (rne (q / (2:ℚ) ^ s) : ℚ) * (2:ℚ) ^ s - q
      = ((rne (q / (2:ℚ) ^ s) : ℚ) - q / (2:ℚ) ^ s) * (2:ℚ) ^ s := by
    rw [sub_mul, hqs]
  rw [hsub, abs_mul, abs_of_pos hspos]
  calc |(rne (q / (2:ℚ) ^ s) : ℚ) - q / (2:ℚ) ^ s| * (2:ℚ) ^ s
      ≤ (1/2) * (2:ℚ) ^ s := by
        apply mul_le_mul_of_nonneg_right (abs_rne_sub_le _) (le_of_lt hspos)
    _ ≤ (1/2) * (2:ℚ) ^ (-16:ℤ) := by
        apply mul_le_mul_of_nonneg_left _ (by norm_num)
        apply zpow_le_zpow_right₀ (by norm_num) (by omega)
    _ = (2:ℚ) ^ (-17:ℤ) := by
        have hsplit : (2:ℚ) ^ (-17:ℤ) = (2:ℚ) ^ (-16:ℤ) * (2:ℚ) ^ (-1:ℤ) := by
          rw [← zpow_add₀ (two_ne_zero : (2:ℚ) ≠ 0)]
          norm_num
        rw [hsplit, zpow_neg_one]
        ring

theorem ceil_roundF64_div (P S : ℕ) (hS1 : 1 ≤ S) (hS2 : S ≤ 65535) (hP : 0 < P)
    (hPb : P ≤ 2 ^ 53) (hv37 : (P:ℚ) / (S:ℚ) < (2:ℚ) ^ (37:ℤ)) :
    ⌈roundF64 ((P:ℚ) / (S:ℚ))⌉ = ⌈(P:ℚ) / (S:ℚ)⌉ := by
  have hSQ : (0:ℚ) < (S:ℚ) := by exact_mod_cast hS1
  have hPQ : (0:ℚ) < (P:ℚ) := by exact_mod_cast hP
  have hv0 : (0:ℚ) < (P:ℚ) / (S:ℚ) := div_pos hPQ hSQ
  by_cases hdvd : S ∣ P
  · rw [(Nat.cast_div hdvd (ne_of_gt hSQ)).symm]
    rw [roundF64_natCast _ (le_trans (Nat.div_le_self P S) hPb)]
  · set v := (P:ℚ) / (S:ℚ) with hv
    set n := ⌈v⌉ with hn
    have hvne : v ≠ (n:ℚ) := by
      intro hz
      apply hdvd
      have hPz : (P:ℚ) = (n:ℚ) * (S:ℚ) := by
        rw [← hz, hv]
        field_simp
      have hPz' : (P:ℤ) = n * (S:ℤ) := by exact_mod_cast hPz
      have : (S:ℤ) ∣ (P:ℤ) := by
        rw [hPz']
        exact dvd_mul_left _ _
      exact_mod_cast this
    have hvltn : v < (n:ℚ) := lt_of_le_of_ne (Int.le_ceil v) hvne
    have hnlt : (n:ℚ) - 1 < v := by
      have := Int.ceil_lt_add_one v
      rw [← hn] at this
      linarith
    -- integer gap on the right : P + 1 ≤ n * S
    have h1 : (P:ℚ) < (n:ℚ) * (S:ℚ) := (div_lt_iff₀ hSQ).mp hvltn
    have h1z : (P:ℤ) + 1 ≤ n * (S:ℤ) := by
      have : (P:ℤ) < n * (S:ℤ) := by exact_mod_cast h1
      omega
    -- integer gap on the left : (n - 1) * S + 1 ≤ P
    have h2 : ((n:ℚ) - 1) * (S:ℚ) < (P:ℚ) := (lt_div_iff₀ hSQ).mp hnlt
    have h2z : (n - 1) * (S:ℤ) + 1 ≤ (P:ℤ) := by
      have : (n - 1) * (S:ℤ) < (P:ℤ) := by exact_mod_cast h2
      omega
    -- the two distance bounds
    have hvS : v * (S:ℚ) = (P:ℚ) := by
      rw [hv]
      field_simp
    have hgap1 : 1 / (S:ℚ) ≤ (n:ℚ) - v := by
      rw [div_le_iff₀ hSQ, sub_mul, hvS]
      have hc : ((P:ℤ):ℚ) + 1 ≤ ((n * (S:ℤ) : ℤ):ℚ) := by exact_mod_cast h1z
      push_cast at hc
      linarith
    have hgap2 : 1 / (S:ℚ) ≤ v - ((n:ℚ) - 1) := by
      rw [div_le_iff₀ hSQ, sub_mul, hvS]
      have hc : (((n - 1) * (S:ℤ) + 1 : ℤ):ℚ) ≤ ((P:ℤ):ℚ) := by exact_mod_cast h2z
      push_cast at hc
      linarith
    -- numerator and denominator bounds for the reduced fraction
    have hnumB : v.num.natAbs < 2 ^ 128 := by
      have hdv : v.num ∣ (P:ℤ) := by
        rw [hv, show ((P:ℚ)) = (((P:ℤ) : ℚ)) by push_cast; ring,
           show ((S:ℚ)) = (((S:ℤ) : ℚ)) by push_cast; ring, ← Rat.divInt_eq_div]
        exact Rat.num_dvd _ (by exact_mod_cast (Nat.pos_iff_ne_zero.mp hS1))
      have : v.num.natAbs ∣ P := by
        have := Int.natAbs_dvd_natAbs.mpr hdv
        simpa using this
      have := Nat.le_of_dvd hP this
      omega
    have hdenB : v.den < 2 ^ 128 := by
      have hdv : ((v.den : ℤ)) ∣ (S:ℤ) := by
        rw [hv, show ((P:ℚ)) = (((P:ℤ) : ℚ)) by push_cast; ring,
           show ((S:ℚ)) = (((S:ℤ) : ℚ)) by push_cast; ring, ← Rat.divInt_eq_div]
        exact Rat.den_dvd _ _
      have hdvn : v.den ∣ S := by exact_mod_cast hdv
      have := Nat.le_of_dvd (by omega) hdvn
      omega
    -- rounding error
    have hub := roundF64Pos_err v hv0 hv37 hnumB hdenB
    rw [← roundF64_pos_eq v hv0] at hub
    have hub2 : |roundF64 v - v| ≤ 1 / 131072 := by
      rw [show (1/131072 : ℚ) = (2:ℚ) ^ (-17:ℤ) by norm_num]
      exact hub
    have habs := abs_le.mp hub2
    -- the error is smaller than both gaps
    have h16 : (1 / 65536 : ℚ) < 1 / (S:ℚ) := by
      rw [div_lt_div_iff₀ (by norm_num) hSQ]
      have : (S:ℚ) ≤ 65535 := by exact_mod_cast hS2
      linarith
    clear_value v n
    rw [Int.ceil_eq_iff]
    constructor
    · linarith [habs.1]
    · linarith [habs.2]

theorem ceil_div_natCast (a b : ℕ) (hb : 1 ≤ b) :
    ⌈(a:ℚ) / (b:ℚ)⌉ = (((a + b - 1) / b : ℕ) : ℤ) := by
  have hbQ : (0:ℚ) < (b:ℚ) := by exact_mod_cast hb
  have hmod := Nat.div_add_mod (a + b - 1) b
  have hmlt : (a + b - 1) % b < b := Nat.mod_lt _ (by omega)
  have key1 : a ≤ b * ((a + b - 1) / b) := by omega
  have key2 : b * ((a + b - 1) / b) < a + b := by omega
  rw [Int.ceil_eq_iff]
  constructor
  · rw [Int.cast_natCast, lt_div_iff₀ hbQ]
    have hzq : (b:ℚ) * (((a + b - 1) / b : ℕ):ℚ) < a + b := by exact_mod_cast key2
    linarith
  · rw [Int.cast_natCast, div_le_iff₀ hbQ]
    have hzq : (a:ℚ) ≤ (b:ℚ) * (((a + b - 1) / b : ℕ):ℚ) := by exact_mod_cast key1
    linarith

/-! ## The claims -/

/-- Running the decode loop over `pre ++ es` equals running it over `es` from
the state reached by `pre`, whenever every entry of `pre` is readable and no
feed of `pre` completes reconstruction. -/
theorem decodeLoop_append {σ : Type} (step : σ → List ℕ → σ × Option (List ℕ))
    (path : String) (pre : List DirEntry) (st st2 : σ) (es : List DirEntry)
    (h : noCompleteRun step st pre = some st2) :
    decodeLoop step path (pre ++ es) st = decodeLoop step path es st2 := by
  induction pre generalizing st with
  | nil =>
    simp only [noCompleteRun, Option.some_inj] at h
    subst h
    simp
  | cons e rest ih =>
    cases e with
    | err m => simp [noCompleteRun] at h
    | file fp content =>
      cases content with
      | error e => simp [noCompleteRun] at h
      | ok data =>
        simp only [noCompleteRun] at h
        cases hstep : step st data with
        | mk st3 r =>
          rw [hstep] at h
          cases r with
          | none =>
            rw [List.cons_append]
            simp only [decodeLoop, hstep]
            exact ih st3 h
          | some _ => simp at h

/-- Claim C4, amended (the emitted message starts with a capital C): for every
decode invocation with valid arguments, if some directory entry is the first
whose packet completes reconstruction, `decode` writes the restored buffer to
the sibling of the symbol directory named `restored_file`, returns that path,
and reads no further entries (the result is independent of the entries after
the completing one); if the whole directory is iterated without completion,
`decode` fails with the message
`Cannot restore the original file from symbols at {path}`. -/
theorem decode_first_success_or_exhaustion (σ : Type) (mkDec : List ℕ → σ)
    (step : σ → List ℕ → σ × Option (List ℕ)) (params : List ℕ) (path : String)
    (hpath : path ≠ "") (hparams : params ≠ []) :
    (∀ (pre post : List DirEntry) (fp : String) (data : List ℕ) (st2 st3 : σ)
        (res : List ℕ),
      noCompleteRun step
          (mkDec (params.take 12 ++ List.replicate (12 - params.length) 0)) pre
        = some st2 →
      step st2 data = (st3, some res) →
      decode mkDec step params path
          (Except.ok (pre ++ DirEntry.file fp (Except.ok data) :: post))
        = (Except.ok (with_file_name path "restored_file"),
           [(with_file_name path "restored_file", res)]))
    ∧ (∀ (entries : List DirEntry) (st2 : σ),
      noCompleteRun step
          (mkDec (params.take 12 ++ List.replicate (12 - params.length) 0)) entries
        = some st2 →
      decode mkDec step params path (Except.ok entries)
        = (Except.error (RqProcessorError.new "decode"
            ("Cannot restore the original file from symbols at " ++ path) ""), [])) := by
  have hlen : ¬ params.length = 0 := by
    intro hc
    exact hparams (List.eq_nil_of_length_eq_zero hc)
  constructor
  · intro pre post fp data st2 st3 res hrun hstep
    rw [decode, if_neg hpath, if_neg hlen]
    show decodeLoop step path (pre ++ DirEntry.file fp (Except.ok data) :: post)
        (mkDec (params.take 12 ++ List.replicate (12 - params.length) 0)) = _
    rw [decodeLoop_append step path pre _ st2 _ hrun]
    simp only [decodeLoop, hstep]
  · intro entries st2 hrun
    rw [decode, if_neg hpath, if_neg hlen]
    show decodeLoop step path entries
        (mkDec (params.take 12 ++ List.replicate (12 - params.length) 0)) = _
    have hthis := decodeLoop_append step path entries _ st2 [] hrun
    rw [List.append_nil] at hthis
    rw [hthis]
    simp [decodeLoop]

/-- Claim C4, counterexample to the claim as stated: on exhaustion the error
message is `Cannot restore the original file from symbols at {path}` with a
capital C, not the lowercase `cannot restore…` message quoted by the claim. -/
theorem decode_exhaustion_message_counterexample :
    (decode (fun _ => ()) (fun s _ => (s, none)) [0] "d" (Except.ok [])).1
      = Except.error (RqProcessorError.new "decode"
          "Cannot restore the original file from symbols at d" "")
    ∧ (RqProcessorError.new "decode"
        "Cannot restore the original file from symbols at d" "").msg
      ≠ "cannot restore the original file from symbols at d" := by
  constructor
  · rfl
  · decide

/-- Claim C5: for every decode invocation with `encoder_parameters` of length
at least 12, only the first 12 bytes determine the behavior:
`decode p path` equals `decode (first 12 bytes of p) path`; bytes at index 12
and beyond never influence the result. -/
theorem decode_uses_first_12_bytes (σ : Type) (mkDec : List ℕ → σ)
    (step : σ → List ℕ → σ × Option (List ℕ)) (params : List ℕ) (path : String)
    (dir : Except String (List DirEntry)) (h : 12 ≤ params.length) :
    decode mkDec step params path dir = decode mkDec step (params.take 12) path dir := by
  rw [decode, decode]
  have hl : ¬ params.length = 0 := by omega
  have ht : (params.take 12).length = 12 := by
    rw [List.length_take]
    omega
  have hl2 : ¬ (params.take 12).length = 0 := by omega
  by_cases hp : path = ""
  · simp [hp]
  · rw [if_neg hp, if_neg hp, if_neg hl, if_neg hl2]
    have hcfg : params.take 12 ++ List.replicate (12 - params.length) 0
        = (params.take 12).take 12 ++ List.replicate (12 - (params.take 12).length) 0 := by
      rw [List.take_take]
      norm_num
      omega
    rw [hcfg]

/-- Claim C6: for every decode invocation with an empty path or empty encoder
parameters, `decode` returns the corresponding invalid-argument error record,
performs no write, and the result does not depend on the decoder constructor,
the decoder step, or the directory contents (the filesystem is untouched). -/
theorem decode_invalid_args (σ : Type) (mkDec : List ℕ → σ)
    (step : σ → List ℕ → σ × Option (List ℕ)) (params : List ℕ) (path : String)
    (dir : Except String (List DirEntry)) :
    (path = "" → decode mkDec step params path dir
      = (Except.error (RqProcessorError.new "decode" "Input symbol's path is empty" ""), []))
    ∧ (path ≠ "" → params = [] → decode mkDec step params path dir
      = (Except.error (RqProcessorError.new "decode" "encoder_parameters are empty" ""), [])) := by
  constructor
  · intro h
    simp [decode, h]
  · intro h1 h2
    subst h2
    simp [decode, h1]

/-- Claim C10: for every decode invocation with `encoder_parameters` of length
between 1 and 11, validation passes and `decode` behaves exactly as if the
caller had passed the parameters right-padded with zero bytes to length 12. -/
theorem decode_short_params_zero_padded (σ : Type) (mkDec : List ℕ → σ)
    (step : σ → List ℕ → σ × Option (List ℕ)) (params : List ℕ) (path : String)
    (dir : Except String (List DirEntry)) (h1 : 1 ≤ params.length)
    (h2 : params.length ≤ 11) :
    decode mkDec step params path dir
      = decode mkDec step (params ++ List.replicate (12 - params.length) 0) path dir := by
  rw [decode, decode]
  have hl : ¬ params.length = 0 := by omega
  have hpadlen : (params ++ List.replicate (12 - params.length) 0).length = 12 := by
    rw [List.length_append, List.length_replicate]
    omega
  have hl2 : ¬ (params ++ List.replicate (12 - params.length) 0).length = 0 := by omega
  by_cases hp : path = ""
  · simp [hp]
  · rw [if_neg hp, if_neg hp, if_neg hl, if_neg hl2]
    have hcfg : params.take 12 ++ List.replicate (12 - params.length) 0
        = (params ++ List.replicate (12 - params.length) 0).take 12
          ++ List.replicate (12 - (params ++ List.replicate (12 - params.length) 0).length) 0 := by
      rw [hpadlen]
      norm_num
      rw [List.take_of_length_le (by omega), List.take_of_length_le (by omega)]
    rw [hcfg]

/-- Claim C2: for every successful `encode` (and `create_metadata`)
invocation, the returned `EncoderMetaData` satisfies
`source_symbols + repair_symbols = number of packets enumerated`, which also
equals the number of packet files the `encode` call attempts to write, with
`repair_symbols` the value of the repair-count policy.  The hypotheses are
the FEC adapter contract: the encoder enumerates at least `repair` packets
(spec §4.3 - it enumerates `source_symbols + k` when asked for `k`), and the
packet count fits in `u32`. -/
theorem encode_count_law (S R : ℕ) (enc : EncoderModel) (p : String) (len : ℕ)
    (bh pid : String) (N : ℕ) (guids : ℕ → String)
    (h1 : repair_symbols_num S R len
      ≤ (enc.getEncodedPackets (repair_symbols_num S R len)).length)
    (h2 : (enc.getEncodedPackets (repair_symbols_num S R len)).length < 2 ^ 32) :
    ((encode S R enc p len).1.1.source_symbols + (encode S R enc p len).1.1.repair_symbols
      = (enc.getEncodedPackets (repair_symbols_num S R len)).length)
    ∧ ((encode S R enc p len).2.length
      = (enc.getEncodedPackets (repair_symbols_num S R len)).length)
    ∧ ((encode S R enc p len).1.1.repair_symbols = repair_symbols_num S R len)
    ∧ ((create_metadata S R enc p len N bh pid guids).1.1.source_symbols
        + (create_metadata S R enc p len N bh pid guids).1.1.repair_symbols
      = (enc.getEncodedPackets (repair_symbols_num S R len)).length)
    ∧ ((create_metadata S R enc p len N bh pid guids).1.1.repair_symbols
      = repair_symbols_num S R len) := by
  refine ⟨?_, ?_, rfl, ?_, rfl⟩
  · simp only [encode, u32_sub]
    omega
  · simp only [encode, List.length_map]
  · simp only [create_metadata, u32_sub, List.length_map]
    omega

/-- Claim C3: for every successful `create_metadata` invocation producing `N`
manifests, all manifests carry identical `block_hash`, `pastel_id` and
`symbol_identifiers` fields (the identifier array preserving the encoder
packet emission order), each `id` is a version-4 GUID distinct from every
other `id` of the call, and each manifest filename equals its `id`.  The
hypotheses are the GUID generator contract: `Uuid::new_v4()` yields fresh
(pairwise-distinct) version-4 GUIDs. -/
theorem create_metadata_manifests (S R : ℕ) (enc : EncoderModel) (p : String)
    (len N : ℕ) (bh pid : String) (guids : ℕ → String)
    (hinj : ∀ i j, i < N → j < N → i ≠ j → guids i ≠ guids j)
    (hv4 : ∀ i, i < N → isV4Guid (guids i) = true) :
    ((create_metadata S R enc p len N bh pid guids).2.length = N)
    ∧ (∀ w ∈ (create_metadata S R enc p len N bh pid guids).2,
        w.2.block_hash = bh ∧ w.2.pastel_id = pid
        ∧ w.2.symbol_identifiers
          = (enc.getEncodedPackets (repair_symbols_num S R len)).map symbols_id
        ∧ isV4Guid w.2.id = true
        ∧ w.1 = output_location p "meta" ++ "/" ++ w.2.id)
    ∧ List.Pairwise (fun w1 w2 => w1.2.id ≠ w2.2.id)
        (create_metadata S R enc p len N bh pid guids).2 := by
  refine ⟨by simp [create_metadata], ?_, ?_⟩
  · intro w hw
    simp only [create_metadata, List.mem_map, List.mem_range] at hw
    obtain ⟨n, hn, rfl⟩ := hw
    exact ⟨rfl, rfl, rfl, hv4 n hn, rfl⟩
  · simp only [create_metadata]
    rw [List.pairwise_map]
    apply List.Pairwise.imp_of_mem _ (List.pairwise_lt_range N)
    intro a b ha hb hab
    simp only [List.mem_range] at ha hb
    exact hinj a b ha hb (Nat.ne_of_lt hab)

/-- Claim C8: for every readable input, `create_metadata` with
`files_number = 0` succeeds, writes zero manifest files, and still returns the
same `EncoderMetaData` (and output directory) as a call with `N > 0` on the
same input, for any GUID streams. -/
theorem create_metadata_zero_files (S R : ℕ) (enc : EncoderModel) (p : String)
    (len : ℕ) (bh pid : String) (guids guids2 : ℕ → String) (N : ℕ) (hN : 0 < N) :
    ((create_metadata S R enc p len 0 bh pid guids).2 = [])
    ∧ ((create_metadata S R enc p len 0 bh pid guids).1
        = (create_metadata S R enc p len N bh pid guids2).1) := by
  exact ⟨by simp [create_metadata], rfl⟩

/-- Claim C9: for every byte sequence `b`, `symbols_id b` equals the base-58
encoding of the SHA3-256 hash of `b` with no prefix, checksum or length
delimiter, and the function is deterministic: byte-identical inputs yield
identical identifiers. -/
theorem symbols_id_is_base58_sha3 :
    (∀ b : List ℕ, symbols_id b = spec_symbol_id b)
    ∧ (∀ b : List ℕ, symbols_id b = base58Encode (sha3_256 b))
    ∧ (∀ b c : List ℕ, b = c → symbols_id b = symbols_id c) :=
  ⟨fun _ => rfl, fun _ => rfl, fun _ _ h => by rw [h]⟩

/-- Claim C1, amended: for `S ≥ 1`, `R ≥ 1` in `u8` range and `S` in `u16`
range, `repair_symbols_num S R L` returns `R` when `L ≤ S`; otherwise,
whenever `L·(R−1) ≤ 2^53` (so the double-precision products are exact) and
the exact ceiling `⌈L·(R−1)/S⌉ = (L·(R−1)+S−1)/S` is at most `2^32 − 1` (so
the saturating `as u32` cast is the identity), it returns exactly that
mathematical ceiling.  Outside this range the f64 rounding and the saturating
cast can change the result (see the counterexample). -/
theorem repair_symbols_num_exact (S R L : ℕ) (hS1 : 1 ≤ S) (hS2 : S < 2 ^ 16)
    (hR1 : 1 ≤ R) (hR2 : R < 2 ^ 8) (hexact : L * (R - 1) ≤ 2 ^ 53)
    (hfit : (L * (R - 1) + S - 1) / S ≤ 2 ^ 32 - 1) :
    (repair_symbols_num S R L = if L ≤ S then R else (L * (R - 1) + S - 1) / S)
    ∧ ⌈((L * (R - 1) : ℕ) : ℚ) / (S : ℚ)⌉ = (((L * (R - 1) + S - 1) / S : ℕ) : ℤ) := by
  refine ⟨?_, ceil_div_natCast _ S hS1⟩
  by_cases hls : L ≤ S
  · simp [repair_symbols_num, hls]
  · rw [if_neg hls]
    simp only [repair_symbols_num, if_neg hls]
    have hrm1 : roundF64 ((R:ℚ) - 1) = ((R - 1 : ℕ) : ℚ) := by
      rw [show ((R:ℚ) - 1) = ((R - 1 : ℕ) : ℚ) by push_cast [hR1]; ring]
      exact roundF64_natCast _ (by omega)
    by_cases hRone : R = 1
    · subst hRone
      rw [hrm1]
      have e0 : ((1 - 1 : ℕ) : ℚ) = 0 := by norm_num
      rw [e0, mul_zero, roundF64_zero, zero_div, roundF64_zero, Int.ceil_zero, u32_sat]
      norm_num
      exact (Nat.div_eq_of_lt (by omega)).symm
    · have hR2' : 2 ≤ R := by omega
      have hLle : L ≤ 2 ^ 53 := by
        have h1 : 1 ≤ R - 1 := by omega
        have : L * 1 ≤ L * (R - 1) := Nat.mul_le_mul_left L h1
        omega
      have hl : roundF64 (L:ℚ) = (L:ℚ) := roundF64_natCast L hLle
      have hPpos : 0 < L * (R - 1) := Nat.mul_pos (by omega) (by omega)
      have hprod : roundF64 ((L:ℚ) * ((R - 1 : ℕ) : ℚ)) = ((L * (R - 1) : ℕ) : ℚ) := by
        rw [show (L:ℚ) * ((R - 1 : ℕ):ℚ) = ((L * (R - 1) : ℕ) : ℚ) by push_cast; ring]
        exact roundF64_natCast _ hexact
      have hC := ceil_div_natCast (L * (R - 1)) S hS1
      have hv37 : ((L * (R - 1) : ℕ):ℚ) / (S:ℚ) < (2:ℚ) ^ (37:ℤ) := by
        have hle := Int.le_ceil (((L * (R - 1) : ℕ):ℚ) / (S:ℚ))
        rw [hC] at hle
        have h1 : ((((L * (R - 1) + S - 1) / S : ℕ) : ℤ) : ℚ) ≤ ((2 ^ 32 - 1 : ℕ) : ℚ) := by
          exact_mod_cast hfit
        have h2 : ((2 ^ 32 - 1 : ℕ):ℚ) < (2:ℚ) ^ (37:ℤ) := by norm_num
        linarith
      have hquot := ceil_roundF64_div (L * (R - 1)) S hS1 (by omega) hPpos hexact hv37
      rw [hl, hrm1, hprod, hquot, hC]
      rw [u32_sat, if_neg (by exact_mod_cast Int.not_lt.mpr (Int.natCast_nonneg _))]
      rw [Int.toNat_natCast]
      omega

/-- Claim C1, counterexample to the claim as stated: at
`S = 1`, `R = 12`, `L = 10^10` the exact mathematical ceiling of
`L·(R−1)/S` is `110000000000`, but the code's saturating `as u32` cast of the
f64 ceiling returns `4294967295 = 2^32 − 1`. -/
theorem repair_symbols_num_not_exact_ceiling :
    repair_symbols_num 1 12 10000000000 = 4294967295
    ∧ ⌈((10000000000 * (12 - 1) : ℕ) : ℚ) / ((1 : ℕ) : ℚ)⌉ = 110000000000
    ∧ repair_symbols_num 1 12 10000000000
      ≠ (⌈((10000000000 * (12 - 1) : ℕ) : ℚ) / ((1 : ℕ) : ℚ)⌉).toNat := by
  have hval : repair_symbols_num 1 12 10000000000 = 4294967295 := by
    with_unfolding_all rfl
  have hceil : ⌈((10000000000 * (12 - 1) : ℕ) : ℚ) / ((1 : ℕ) : ℚ)⌉ = 110000000000 := by
    rw [ceil_div_natCast _ 1 (le_refl 1)]
    norm_num
  refine ⟨hval, hceil, ?_⟩
  rw [hval, hceil]
  decide

/-- Witness for the amended claim C1 at scenario S3 of the spec. -/
theorem repair_symbols_num_exact_witness :
    (repair_symbols_num 50000 12 10000001
      = if 10000001 ≤ 50000 then 12 else (10000001 * (12 - 1) + 50000 - 1) / 50000)
    ∧ ⌈((10000001 * (12 - 1) : ℕ) : ℚ) / ((50000 : ℕ) : ℚ)⌉
      = (((10000001 * (12 - 1) + 50000 - 1) / 50000 : ℕ) : ℤ) :=
  repair_symbols_num_exact 50000 12 10000001 (by norm_num) (by norm_num) (by norm_num)
    (by norm_num) (by norm_num) (by norm_num)

/-- Witness for claim C2 at a concrete 13-packet encoder. -/
theorem encode_count_law_witness :
    ((encode 50000 12 (EncoderModel.mk (fun _ => List.replicate 13 []) [0]) "t/f" 10000).1.1.source_symbols
      + (encode 50000 12 (EncoderModel.mk (fun _ => List.replicate 13 []) [0]) "t/f" 10000).1.1.repair_symbols
      = 13)
    ∧ ((encode 50000 12 (EncoderModel.mk (fun _ => List.replicate 13 []) [0]) "t/f" 10000).2.length = 13)
    ∧ ((create_metadata 50000 12 (EncoderModel.mk (fun _ => List.replicate 13 []) [0]) "t/f" 10000
          3 "b" "p" (fun _ => "g")).1.1.source_symbols
      + (create_metadata 50000 12 (EncoderModel.mk (fun _ => List.replicate 13 []) [0]) "t/f" 10000
          3 "b" "p" (fun _ => "g")).1.1.repair_symbols
      = 13) := by
  have h := encode_count_law 50000 12 (EncoderModel.mk (fun _ => List.replicate 13 []) [0])
    "t/f" 10000 "b" "p" 3 (fun _ => "g") (by decide) (by decide)
  exact ⟨by simpa using h.1, by simpa using h.2.1, by simpa using h.2.2.2.1⟩

/-- Witness for claim C3 with two concrete v4 GUIDs. -/
theorem create_metadata_manifests_witness :
    (((create_metadata 1 1 (EncoderModel.mk (fun _ => []) []) "t/f" 0 2 "bh" "pid"
        (fun i => if i = 0 then "aaaaaaaa-aaaa-4aaa-8aaa-aaaaaaaaaaaa"
                  else "bbbbbbbb-bbbb-4bbb-9bbb-bbbbbbbbbbbb")).2.length = 2))
    ∧ (∀ w ∈ (create_metadata 1 1 (EncoderModel.mk (fun _ => []) []) "t/f" 0 2 "bh" "pid"
        (fun i => if i = 0 then "aaaaaaaa-aaaa-4aaa-8aaa-aaaaaaaaaaaa"
                  else "bbbbbbbb-bbbb-4bbb-9bbb-bbbbbbbbbbbb")).2,
        w.2.block_hash = "bh" ∧ w.2.pastel_id = "pid"
        ∧ w.2.symbol_identifiers
          = ((EncoderModel.mk (fun _ => []) []).getEncodedPackets
              (repair_symbols_num 1 1 0)).map symbols_id
        ∧ isV4Guid w.2.id = true
        ∧ w.1 = output_location "t/f" "meta" ++ "/" ++ w.2.id)
    ∧ List.Pairwise (fun w1 w2 => w1.2.id ≠ w2.2.id)
        (create_metadata 1 1 (EncoderModel.mk (fun _ => []) []) "t/f" 0 2 "bh" "pid"
          (fun i => if i = 0 then "aaaaaaaa-aaaa-4aaa-8aaa-aaaaaaaaaaaa"
                    else "bbbbbbbb-bbbb-4bbb-9bbb-bbbbbbbbbbbb")).2 :=
  create_metadata_manifests 1 1 (EncoderModel.mk (fun _ => []) []) "t/f" 0 2 "bh" "pid"
    (fun i => if i = 0 then "aaaaaaaa-aaaa-4aaa-8aaa-aaaaaaaaaaaa"
              else "bbbbbbbb-bbbb-4bbb-9bbb-bbbbbbbbbbbb")
    (by
      intro i j hi hj hne
      interval_cases i <;> interval_cases j <;> first | exact absurd rfl hne | decide)
    (by intro i hi; interval_cases i <;> decide)

/-- Witness for the amended claim C4 at a concrete decoder. -/
theorem decode_first_success_or_exhaustion_witness :
    decode (fun _ => false) (fun _ d => (true, if d = [1] then some [7, 8] else none))
        [0] "a/symbols"
        (Except.ok ([DirEntry.file "x" (Except.ok [0])]
          ++ DirEntry.file "y" (Except.ok [1]) :: [DirEntry.err "z"]))
      = (Except.ok (with_file_name "a/symbols" "restored_file"),
         [(with_file_name "a/symbols" "restored_file", [7, 8])])
    ∧ decode (fun _ => false) (fun _ d => (true, if d = [1] then some [7, 8] else none))
        [0] "a/symbols" (Except.ok [DirEntry.file "x" (Except.ok [0])])
      = (Except.error (RqProcessorError.new "decode"
          ("Cannot restore the original file from symbols at " ++ "a/symbols") ""), []) :=
  ⟨(decode_first_success_or_exhaustion Bool (fun _ => false)
      (fun _ d => (true, if d = [1] then some [7, 8] else none)) [0] "a/symbols"
      (by decide) (by decide)).1
      [DirEntry.file "x" (Except.ok [0])] [DirEntry.err "z"] "y" [1] true true [7, 8]
      (by decide) (by decide),
   (decode_first_success_or_exhaustion Bool (fun _ => false)
      (fun _ d => (true, if d = [1] then some [7, 8] else none)) [0] "a/symbols"
      (by decide) (by decide)).2
      [DirEntry.file "x" (Except.ok [0])] true (by decide)⟩

/-- Witness for claim C5 at 13-byte parameters. -/
theorem decode_uses_first_12_bytes_witness :
    decode (fun l => l.length) (fun s _ => (s, none))
        [0, 1, 2, 3, 4, 5, 6, 7, 8, 9, 10, 11, 99] "p" (Except.ok [])
      = decode (fun l => l.length) (fun s _ => (s, none))
        ([0, 1, 2, 3, 4, 5, 6, 7, 8, 9, 10, 11, 99].take 12) "p" (Except.ok []) :=
  decode_uses_first_12_bytes ℕ (fun l => l.length) (fun s _ => (s, none))
    [0, 1, 2, 3, 4, 5, 6, 7, 8, 9, 10, 11, 99] "p" (Except.ok []) (by decide)

/-- Witness for claim C6 at an empty path and at empty parameters. -/
theorem decode_invalid_args_witness :
    (decode (fun _ => ()) (fun s _ => (s, none)) [1] "" (Except.ok [])
      = (Except.error (RqProcessorError.new "decode" "Input symbol's path is empty" ""), []))
    ∧ (decode (fun _ => ()) (fun s _ => (s, none)) [] "x" (Except.ok [])
      = (Except.error (RqProcessorError.new "decode" "encoder_parameters are empty" ""), [])) :=
  ⟨(decode_invalid_args Unit (fun _ => ()) (fun s _ => (s, none)) [1] "" (Except.ok [])).1 rfl,
   (decode_invalid_args Unit (fun _ => ()) (fun s _ => (s, none)) [] "x" (Except.ok [])).2
     (by decide) rfl⟩

/-- Witness for claim C10 at one-byte parameters. -/
theorem decode_short_params_zero_padded_witness :
    decode (fun l => l.length) (fun s _ => (s, none)) [5] "p" (Except.ok [])
      = decode (fun l => l.length) (fun s _ => (s, none))
          ([5] ++ List.replicate (12 - [5].length) 0) "p" (Except.ok []) :=
  decode_short_params_zero_padded ℕ (fun l => l.length) (fun s _ => (s, none)) [5] "p"
    (Except.ok []) (by decide) (by decide)

/-- Witness for claim C8 at a concrete encoder. -/
theorem create_metadata_zero_files_witness :
    ((create_metadata 1 1 (EncoderModel.mk (fun _ => []) [7]) "t/f" 5 0 "b" "p"
        (fun _ => "g")).2 = [])
    ∧ ((create_metadata 1 1 (EncoderModel.mk (fun _ => []) [7]) "t/f" 5 0 "b" "p"
        (fun _ => "g")).1
      = (create_metadata 1 1 (EncoderModel.mk (fun _ => []) [7]) "t/f" 5 3 "b" "p"
        (fun _ => "h")).1) :=
  create_metadata_zero_files 1 1 (EncoderModel.mk (fun _ => []) [7]) "t/f" 5 "b" "p"
    (fun _ => "g") (fun _ => "h") 3 (by norm_num)

/-- Witness for claim C9 at a concrete byte sequence. -/
theorem symbols_id_is_base58_sha3_witness :
    symbols_id [1, 2, 3] = spec_symbol_id [1, 2, 3]
    ∧ symbols_id [1, 2, 3] = symbols_id [1, 2, 3] :=
  ⟨symbols_id_is_base58_sha3.1 [1, 2, 3],
   symbols_id_is_base58_sha3.2.2 [1, 2, 3] [1, 2, 3] rfl⟩
